import Mathlib

/-!
Verification of the block-blast puzzle engine (src/src/Game.ts, src/src/index.ts
constants, and the unnamed Game/GameAI sources).  The board, shapes, placement
validation, line clearing, scoring, state machine pieces and the heuristic AI
are embedded as executable Lean definitions mirroring the TypeScript source.
-/

namespace BlockBlast

/-- constants.ts: `GRID_SIZE = 8`. -/
def GRID_SIZE : Nat := 8

/-- constants.ts: `BLOCK_COLORS`, the fixed color palette. -/
def BLOCK_COLORS : List Nat :=
  [0xff0000, 0x00ff00, 0x0000ff, 0xffff00, 0xff00ff, 0x00ffff, 0xffa500]

/-- A board cell (types.ts `Block`, restricted to its game-logic fields
`color` and `isEmpty`; the PIXI sprite and the redundant `position` field
are rendering state). -/
structure Cell where
  color : Nat
  isEmpty : Bool
deriving DecidableEq, Repr

/-- The cell value written by `createEmptyBoard` and `clearBlock`:
`isEmpty = true`, `color = 0`. -/
def emptyCell : Cell := { color := 0, isEmpty := true }

/-- The game board: `GRID_SIZE × GRID_SIZE` grid of cells (`gameBoard`). -/
abbrev Board := Fin GRID_SIZE → Fin GRID_SIZE → Cell

/-- createEmptyBoard: every cell empty with sentinel color 0. -/
def createEmptyBoard : Board := fun _ _ => emptyCell

/-- Read `gameBoard[r][c]` at Nat indices; out-of-range reads (which the
TypeScript code never performs on the paths we verify, thanks to the bounds
check in `canPlaceShape`) default to an empty cell. -/
def boardGet (b : Board) (r c : Nat) : Cell :=
  if h : r < GRID_SIZE ∧ c < GRID_SIZE then b ⟨r, h.1⟩ ⟨c, h.2⟩ else emptyCell

/-- Write one board cell (the state effect of assigning to
`gameBoard[r][c]` fields). -/
def setCell (b : Board) (r c : Nat) (v : Cell) : Board :=
  fun i j => if i.val = r ∧ j.val = c then v else b i j

/-- A shape (types.ts `Shape`, game-logic fields: the boolean matrix
`blocks` and the `color`; the PIXI container and the derived `width`/`height`
fields are rendering state). -/
structure Shape where
  blocks : List (List Bool)
  color : Nat
deriving DecidableEq, Repr

/-- Read `matrix[r][c]` of a shape matrix; out-of-range reads are `false`. -/
def getCell (m : List (List Bool)) (r c : Nat) : Bool :=
  (m.getD r []).getD c false

/-- A shape matrix is rectangular: every row has the width of the first row.
All catalog shapes (constants.ts `SHAPES`) satisfy this. -/
def Rect (m : List (List Bool)) : Prop :=
  ∀ row ∈ m, row.length = (m.headD []).length

instance (m : List (List Bool)) : Decidable (Rect m) := by
  unfold Rect; infer_instance

/-- `shape.blocks.length` (the height used by `canPlaceShape`). -/
def shapeHeight (s : Shape) : Nat := s.blocks.length

/-- `shape.blocks[0].length` (the width used by `canPlaceShape`). -/
def shapeWidth (s : Shape) : Nat := (s.blocks.headD []).length

/-- canPlaceShape (Game.ts 510-527 and the unnamed Game source 641-658):
rejects when the shape sticks out of the board
(`startRow < 0 ∨ startRow + height > GRID_SIZE ∨ startCol < 0 ∨
startCol + width > GRID_SIZE`), otherwise scans the shape matrix and rejects
when a true cell lies over a non-empty board cell. -/
def canPlaceShape (b : Board) (startRow startCol : Int) (s : Shape) : Bool :=
  if startRow < 0 || startRow + (shapeHeight s : Int) > (GRID_SIZE : Int)
      || startCol < 0 || startCol + (shapeWidth s : Int) > (GRID_SIZE : Int) then
    false
  else
    (List.range s.blocks.length).all fun row =>
      (List.range (s.blocks.getD row []).length).all fun col =>
        !(getCell s.blocks row col
            && !(boardGet b (startRow.toNat + row) (startCol.toNat + col)).isEmpty)

/-- The row-major traversal order of the shape matrix used by the placement
loop in `placeShape`. -/
def shapePairs (s : Shape) : List (Nat × Nat) :=
  (List.range s.blocks.length).flatMap fun row =>
    (List.range (s.blocks.getD row []).length).map fun col => (row, col)

/-- placeShape (Game.ts 535-571, board-mutation part): for every true cell of
the shape matrix, set the corresponding board cell to the shape color and
mark it non-empty.  The rendering side effects (sprite swap, tween) carry no
game state. -/
def placeShape (b : Board) (startRow startCol : Nat) (s : Shape) : Board :=
  (shapePairs s).foldl
    (fun acc p =>
      if getCell s.blocks p.1 p.2 then
        setCell acc (startRow + p.1) (startCol + p.2) { color := s.color, isEmpty := false }
      else acc) b

/-- Rows detected full by checkLines: all `GRID_SIZE` cells non-empty. -/
def fullRows (b : Board) : List Nat :=
  (List.range GRID_SIZE).filter fun row =>
    (List.range GRID_SIZE).all fun col => !(boardGet b row col).isEmpty

/-- Columns detected full by checkLines: all `GRID_SIZE` cells non-empty. -/
def fullCols (b : Board) : List Nat :=
  (List.range GRID_SIZE).filter fun col =>
    (List.range GRID_SIZE).all fun row => !(boardGet b row col).isEmpty

/-- clearLines' `blocksToRemove` collection: all cells of the selected rows,
then all cells of the selected columns, each appended only if not already
collected (the `includes` dedup check). -/
def blocksToRemove (rows cols : List Nat) : List (Nat × Nat) :=
  ((rows.flatMap fun row => (List.range GRID_SIZE).map fun col => (row, col))
    ++ (cols.flatMap fun col => (List.range GRID_SIZE).map fun row => (row, col))).foldl
    (fun acc p => if p ∈ acc then acc else acc ++ [p]) []

/-- clearBlock (Game.ts 620-632): reset one cell to empty with color 0. -/
def clearBlock (b : Board) (r c : Nat) : Board := setCell b r c emptyCell

/-- clearLines (Game.ts 639-690, board effect once the animations complete):
clearBlock every collected cell. -/
def clearLines (b : Board) (rows cols : List Nat) : Board :=
  (blocksToRemove rows cols).foldl (fun acc p => clearBlock acc p.1 p.2) b

/-- updateScore (Game.ts 696-701): add `linesCleared * 100`. -/
def updateScore (score linesCleared : Nat) : Nat := score + linesCleared * 100

/-- checkLines (Game.ts 576-608, board and score effect): detect full rows
and columns; when any exists, clear them and update the score by
`(#rows + #cols) * 100`. -/
def checkLines (b : Board) (score : Nat) : Board × Nat :=
  let rows := fullRows b
  let cols := fullCols b
  if rows.length > 0 || cols.length > 0 then
    (clearLines b rows cols, updateScore score (rows.length + cols.length))
  else (b, score)

/-- Number of non-empty cells of a board. -/
def filledCount (b : Board) : Nat :=
  (Finset.univ.filter fun p : Fin GRID_SIZE × Fin GRID_SIZE =>
    (b p.1 p.2).isEmpty = false).card

/-- Number of true cells of a shape matrix. -/
def trueCellCount (s : Shape) : Nat :=
  ∑ row ∈ Finset.range s.blocks.length,
    ∑ col ∈ Finset.range (s.blocks.getD row []).length,
      if getCell s.blocks row col then 1 else 0

/-- hasValidMoves (Game.ts 369-384): with a non-empty shape list, true iff
some shape can be placed somewhere; with no shapes, false. -/
def hasValidMoves (b : Board) (shapes : List Shape) : Bool :=
  if shapes.length > 0 then
    shapes.any fun s =>
      (List.range GRID_SIZE).any fun row =>
        (List.range GRID_SIZE).any fun col =>
          canPlaceShape b (row : Int) (col : Int) s
  else false

/-- rotateShape (Game.ts 350-363): 90-degree clockwise rotation,
`rotated[col][rows - 1 - row] = shape[row][col]`, result dimensions
`cols × rows`. -/
def rotateShape (shape : List (List Bool)) : List (List Bool) :=
  let rows := shape.length
  let cols := (shape.headD []).length
  (List.range cols).map fun c =>
    (List.range rows).map fun k => getCell shape (rows - 1 - k) c

/-- The game-logic state (types.ts `GameState`, the fields the verified
transitions touch, plus the board owned by the `Game` class). -/
structure GameState where
  score : Nat
  isGameOver : Bool
  shapes : List Shape
  board : Board

/-- checkLines as a state transition (Game.ts 576-614): detect and clear
full lines, update the score, and run the game-over checks.  The clearing
and the animation-completion `checkGameOver` are modeled synchronously; the
trailing `shapes.length === 1` check runs before the clear animation
completes and therefore reads the pre-clear board, as in the source. -/
def checkLinesState (g : GameState) : GameState :=
  let rows := fullRows g.board
  let cols := fullCols g.board
  let cleared := rows.length > 0 || cols.length > 0
  let b' := if cleared then clearLines g.board rows cols else g.board
  let score' := if cleared then updateScore g.score (rows.length + cols.length) else g.score
  let over1 := g.isGameOver || (g.shapes.length == 1 && !(hasValidMoves g.board g.shapes))
  let over2 := over1 || (cleared && !(hasValidMoves b' g.shapes))
  { score := score', isGameOver := over2, shapes := g.shapes, board := b' }

/-- The successful placement path of onDragEnd (Game.ts 457-501):
onDragStart refuses to pick a shape up once the game is over; onDragEnd
validates `canPlaceShape`, then commits via `placeShape` (which calls
`checkLines`), removes the placed shape from the batch, and calls
`checkLines` again.  Batch regeneration on an emptied batch is random and is
not modeled here (the theorems about this function keep the batch
non-empty). -/
def attemptPlace (g : GameState) (s : Shape) (row col : Int) : Option GameState :=
  if g.isGameOver then none
  else if s ∈ g.shapes then
    if canPlaceShape g.board row col s then
      let g1 : GameState := { g with board := placeShape g.board row.toNat col.toNat s }
      let g2 := checkLinesState g1
      let g3 : GameState := { g2 with shapes := g2.shapes.erase s }
      some (checkLinesState g3)
    else none
  else none

/-- generateNewShapes of the unnamed Game source (lines 352-425): returns
unchanged when the game is over or when any shape remains unplaced
(`if (this.state.shapes.length > 0) return`); otherwise installs the three
freshly drawn shapes (the random draw is abstracted as the `fresh`
argument) and ends the game when they admit no valid move. -/
def generateNewShapes (g : GameState) (fresh : List Shape) : GameState :=
  if g.isGameOver then g
  else if g.shapes.length > 0 then g
  else
    let g1 : GameState := { g with shapes := fresh }
    if !(hasValidMoves g1.board g1.shapes) then { g1 with isGameOver := true } else g1

/-- generateNewShapes of Game.ts (lines 248-332): no empty-batch guard — it
discards whatever shapes remain and installs a fresh batch (the random draw
is abstracted as `fresh`), ending the game when the new batch admits no
valid move.  Game.ts `runAI` calls this directly whenever the AI finds no
valid move, even mid-batch. -/
def generateNewShapesGameTs (g : GameState) (fresh : List Shape) : GameState :=
  if g.isGameOver then g
  else
    let g1 : GameState := { g with shapes := fresh }
    if !(hasValidMoves g1.board g1.shapes) then { g1 with isGameOver := true } else g1

/-- simulatePlacement (Game.ts 1071-1093): the boolean occupancy grid after
hypothetically placing the shape — a cell is occupied iff it was non-empty
on the real board or is covered by a true shape cell. -/
def simulatePlacement (b : Board) (row col : Nat) (s : Shape) (r c : Nat) : Bool :=
  (decide (row ≤ r) && decide (col ≤ c) && getCell s.blocks (r - row) (c - col))
    || !(boardGet b r c).isEmpty

/-- One line scan of findBestMove (Game.ts 956-1001): walk the cells keeping
`(blocks, gaps, lastWasEmpty)`; an empty cell after at least one filled cell
and not immediately after another empty cell counts one gap run. -/
def scanLine (cells : List Bool) : Nat × Nat :=
  let st := cells.foldl
    (fun (st : Nat × Nat × Bool) filled =>
      if !filled then
        if !st.2.2 && st.1 > 0 then (st.1, st.2.1 + 1, true) else (st.1, st.2.1, true)
      else (st.1 + 1, st.2.1, false))
    (0, 0, false)
  (st.1, st.2.1)

/-- The `(wouldClearLines, wouldCreateGaps)` pair of findBestMove: scan each
row and each column of the simulated board; a line with `GRID_SIZE` blocks
counts as a clear, and gap runs accumulate. -/
def lineStats (b : Board) (row col : Nat) (s : Shape) : Nat × Nat :=
  let rowStats := (List.range GRID_SIZE).map fun r =>
    scanLine ((List.range GRID_SIZE).map fun c => simulatePlacement b row col s r c)
  let colStats := (List.range GRID_SIZE).map fun c =>
    scanLine ((List.range GRID_SIZE).map fun r => simulatePlacement b row col s r c)
  ((rowStats.filter fun st => st.1 == GRID_SIZE).length
      + (colStats.filter fun st => st.1 == GRID_SIZE).length,
    (rowStats.map fun st => st.2).sum + (colStats.map fun st => st.2).sum)

/-- The `(touchingBlocks, touchingEdges)` pair of findBestMove (Game.ts
1007-1034): for every true shape cell, each of the four direct neighbours
counts as a touching block when it is an in-board non-empty cell of the
real board, and as a touching edge when it falls outside the board. -/
def touchingCounts (b : Board) (row col : Nat) (s : Shape) : Nat × Nat :=
  let dirs : List (Int × Int) := [(-1, 0), (1, 0), (0, -1), (0, 1)]
  (shapePairs s).foldl
    (fun acc p =>
      if getCell s.blocks p.1 p.2 then
        dirs.foldl
          (fun acc2 d =>
            let nr : Int := ((row + p.1 : Nat) : Int) + d.1
            let nc : Int := ((col + p.2 : Nat) : Int) + d.2
            if 0 ≤ nr ∧ nr < (GRID_SIZE : Int) ∧ 0 ≤ nc ∧ nc < (GRID_SIZE : Int) then
              if !(boardGet b nr.toNat nc.toNat).isEmpty then (acc2.1 + 1, acc2.2)
              else acc2
            else (acc2.1, acc2.2 + 1))
          acc
      else acc)
    (0, 0)

/-- The heuristic score findBestMove assigns to placing `s` at `(row, col)`
(Game.ts 1003-1045): clears dominate at 1000 each plus a 2000 bonus when
any clear happens; gap runs cost 50; touching blocks gain 100; touching
edges cost 30; lower rows gain `(GRID_SIZE - row) * 20`. -/
def heurScore (b : Board) (row col : Nat) (s : Shape) : Int :=
  let stats := lineStats b row col s
  let touch := touchingCounts b row col s
  (stats.1 : Int) * 1000 - (stats.2 : Int) * 50 + (touch.1 : Int) * 100
    - (touch.2 : Int) * 30 + ((GRID_SIZE : Int) - (row : Int)) * 20
    + (if stats.1 > 0 then 2000 else 0)

/-- The row-major, then column-major position scan order of findBestMove. -/
def positionList : List (Nat × Nat) :=
  (List.range GRID_SIZE).flatMap fun row =>
    (List.range GRID_SIZE).map fun col => (row, col)

/-- findBestMove (Game.ts 935-1062): scan all positions in row-major order;
for each placeable one compute the heuristic score and keep it only when
strictly greater than the best so far (`score > bestScore`, starting from
minus infinity — the `none` accumulator).  Returns `none` exactly when the
shape has no valid placement (the `{row: -1, col: -1, score: -Infinity}`
sentinel of the source). -/
def findBestMove (b : Board) (s : Shape) : Option (Nat × Nat × Int) :=
  positionList.foldl
    (fun acc rc =>
      if canPlaceShape b (rc.1 : Int) (rc.2 : Int) s then
        let sc := heurScore b rc.1 rc.2 s
        match acc with
        | none => some (rc.1, rc.2, sc)
        | some best => if sc > best.2.2 then some (rc.1, rc.2, sc) else acc
      else acc)
    none

/-- The move-selection loop shared by Game.ts `runAI` (1099-1114) and
GameAI `executeMove` (unnamed source 1399-1441): iterate the batch in order,
keeping a shape's best move only when its score is strictly greater than
the best found so far; `none` (no shape placeable) makes the AI commit no
placement. -/
def selectMove (b : Board) (shapes : List Shape) : Option (Shape × Nat × Nat × Int) :=
  shapes.foldl
    (fun acc s =>
      match findBestMove b s with
      | none => acc
      | some mv =>
        match acc with
        | none => some (s, mv.1, mv.2.1, mv.2.2)
        | some best => if mv.2.2 > best.2.2.2 then some (s, mv.1, mv.2.1, mv.2.2) else acc)
    none

/-- The per-shape candidate list of findBestMove in scan order: each
placeable position paired with its heuristic score. -/
def perShapeCandidates (b : Board) (s : Shape) : List (Nat × Nat × Int) :=
  positionList.filterMap fun rc =>
    if canPlaceShape b (rc.1 : Int) (rc.2 : Int) s then
      some (rc.1, rc.2, heurScore b rc.1 rc.2 s)
    else none

/-- All AI candidates in full scan order: shapes in batch order, positions
row-major then column-major. -/
def candidateList (b : Board) (shapes : List Shape) : List (Shape × Nat × Nat × Int) :=
  shapes.flatMap fun s => (perShapeCandidates b s).map fun m => (s, m.1, m.2.1, m.2.2)

/-- The heuristic score of a full candidate. -/
def candScore (cand : Shape × Nat × Nat × Int) : Int := cand.2.2.2

/-! Generic machinery for the strict greater-than, keep-first selection fold
used by `findBestMove` and `selectMove`. -/

/-- One step of a strict-max fold: replace the accumulator only when the new
element scores strictly higher (or when there is no accumulator yet, the
minus-infinity sentinel of the source). -/
def pbStep {α : Type _} (f : α → Int) (acc : Option α) (x : α) : Option α :=
  match acc with
  | none => some x
  | some y => if f x > f y then some x else acc

/-- Select the first element of strictly greatest score, or `none` on an
empty list. -/
def pickBest {α : Type _} (f : α → Int) (l : List α) : Option α :=
  l.foldl (pbStep f) none

/-- Combine the selections of two sublists, preferring the left one on
ties. -/
def pbCombine {α : Type _} (f : α → Int) (o1 o2 : Option α) : Option α :=
  match o1, o2 with
  | acc, none => acc
  | none, some z => some z
  | some y, some z => if f z > f y then some z else some y

theorem pbCombine_none_left {α : Type _} (f : α → Int) (o : Option α) :
    pbCombine f none o = o := by
  cases o <;> rfl

theorem pbStep_eq {α : Type _} (f : α → Int) (acc : Option α) (x : α) :
    pbStep f acc x = pbCombine f acc (some x) := by
  cases acc <;> rfl

theorem pbCombine_none_right {α : Type _} (f : α → Int) (o : Option α) :
    pbCombine f o none = o := by
  cases o <;> rfl

theorem pbCombine_assoc {α : Type _} (f : α → Int) (a b c : Option α) :
    pbCombine f (pbCombine f a b) c = pbCombine f a (pbCombine f b c) := by
  cases a with
  | none => rw [pbCombine_none_left, pbCombine_none_left]
  | some x =>
    cases c with
    | none => rw [pbCombine_none_right, pbCombine_none_right]
    | some z =>
      cases b with
      | none => rfl
      | some y =>
        by_cases h1 : f y > f x
        · by_cases h2 : f z > f y
          · have h3 : f z > f x := by omega
            simp only [pbCombine, if_pos h1, if_pos h2, if_pos h3]
          · simp only [pbCombine, if_pos h1, if_neg h2]
        · by_cases h2 : f z > f y
          · simp only [pbCombine, if_neg h1, if_pos h2]
          · have h3 : ¬f z > f x := by omega
            simp only [pbCombine, if_neg h1, if_neg h2, if_neg h3]

theorem foldl_pbStep_eq {α : Type _} (f : α → Int) (l : List α) :
    ∀ acc, l.foldl (pbStep f) acc = pbCombine f acc (pickBest f l) := by
  induction l with
  | nil => intro acc; cases acc <;> rfl
  | cons x xs ih =>
    intro acc
    have hcons : pickBest f (x :: xs) = pbCombine f (some x) (pickBest f xs) := by
      show xs.foldl (pbStep f) (pbStep f none x) = _
      rw [ih, pbStep_eq, pbCombine_none_left]
    show xs.foldl (pbStep f) (pbStep f acc x) = _
    rw [ih, pbStep_eq, hcons, pbCombine_assoc]

theorem pickBest_cons {α : Type _} (f : α → Int) (x : α) (l : List α) :
    pickBest f (x :: l) = pbCombine f (some x) (pickBest f l) := by
  show l.foldl (pbStep f) (pbStep f none x) = _
  rw [foldl_pbStep_eq, pbStep_eq, pbCombine_none_left]

theorem pickBest_append {α : Type _} (f : α → Int) (l1 l2 : List α) :
    pickBest f (l1 ++ l2) = pbCombine f (pickBest f l1) (pickBest f l2) := by
  show (l1 ++ l2).foldl (pbStep f) none = _
  rw [List.foldl_append, foldl_pbStep_eq]
  rfl

theorem pickBest_map {α β : Type _} (f : β → Int) (g : α → β) (l : List α) :
    pickBest f (l.map g) = (pickBest (fun a => f (g a)) l).map g := by
  induction l with
  | nil => rfl
  | cons x xs ih =>
    rw [List.map_cons, pickBest_cons, ih, pickBest_cons]
    cases pickBest (fun a => f (g a)) xs with
    | none => rfl
    | some y =>
      simp only [Option.map_some', pbCombine]
      rw [apply_ite (Option.map g)]
      rfl

theorem pickBest_eq_none_iff {α : Type _} (f : α → Int) (l : List α) :
    pickBest f l = none ↔ l = [] := by
  cases l with
  | nil => simp [pickBest]
  | cons x xs =>
    rw [pickBest_cons]
    constructor
    · intro h
      exfalso
      cases hxs : pickBest f xs with
      | none => rw [hxs] at h; simp [pbCombine] at h
      | some z =>
        rw [hxs] at h
        simp only [pbCombine] at h
        split at h <;> simp at h
    · intro h; simp at h

theorem pickBest_spec {α : Type _} (f : α → Int) (l : List α) :
    ∀ y, pickBest f l = some y →
    ∃ l1 l2, l = l1 ++ y :: l2 ∧ (∀ x ∈ l1, f x < f y) ∧ ∀ x ∈ l2, f x ≤ f y := by
  induction l with
  | nil => intro y h; simp [pickBest] at h
  | cons x xs ih =>
    intro y h
    rw [pickBest_cons] at h
    cases hxs : pickBest f xs with
    | none =>
      rw [hxs] at h
      simp only [pbCombine] at h
      injection h with h
      subst h
      have hnil : xs = [] := (pickBest_eq_none_iff f xs).mp hxs
      subst hnil
      exact ⟨[], [], rfl, by simp, by simp⟩
    | some z =>
      rw [hxs] at h
      simp only [pbCombine] at h
      by_cases hc : f z > f x
      · rw [if_pos hc] at h
        injection h with h
        subst h
        obtain ⟨m1, m2, hm, hlt, hle⟩ := ih z hxs
        refine ⟨x :: m1, m2, by simp [hm], ?_, hle⟩
        intro u hu
        rcases List.mem_cons.mp hu with rfl | hu
        · omega
        · exact hlt u hu
      · rw [if_neg hc] at h
        injection h with h
        subst h
        obtain ⟨m1, m2, hm, hlt, hle⟩ := ih z hxs
        refine ⟨[], xs, rfl, by simp, ?_⟩
        intro u hu
        rw [hm] at hu
        rcases List.mem_append.mp hu with h1 | h2
        · have := hlt u h1; omega
        · rcases List.mem_cons.mp h2 with rfl | h2
          · omega
          · have := hle u h2; omega

theorem pickBest_mem {α : Type _} (f : α → Int) (l : List α) (y : α)
    (h : pickBest f l = some y) : y ∈ l := by
  obtain ⟨l1, l2, hm, -, -⟩ := pickBest_spec f l y h
  rw [hm]
  exact List.mem_append.mpr (Or.inr (List.mem_cons_self ..))

theorem foldl_filterMap {α β γ : Type _} (f : α → Option β) (g : γ → β → γ)
    (l : List α) : ∀ init : γ,
    (l.filterMap f).foldl g init
      = l.foldl (fun acc x => match f x with | none => acc | some v => g acc v) init := by
  induction l with
  | nil => intro init; rfl
  | cons x xs ih =>
    intro init
    cases hfx : f x <;> simp [List.filterMap_cons, hfx, ih]

theorem findBestMove_eq (b : Board) (s : Shape) :
    findBestMove b s = pickBest (fun m => m.2.2) (perShapeCandidates b s) := by
  rw [findBestMove, perShapeCandidates, pickBest, foldl_filterMap]
  congr 1
  funext acc rc
  by_cases h : canPlaceShape b (rc.1 : Int) (rc.2 : Int) s = true
  · simp only [h, if_true]
    cases acc <;> rfl
  · simp only [Bool.not_eq_true] at h
    simp [h]

theorem selectMove_go (b : Board) (shapes : List Shape) :
    ∀ acc,
    shapes.foldl
      (fun acc s =>
        match findBestMove b s with
        | none => acc
        | some mv =>
          match acc with
          | none => some (s, mv.1, mv.2.1, mv.2.2)
          | some best => if mv.2.2 > best.2.2.2 then some (s, mv.1, mv.2.1, mv.2.2) else acc)
      acc
    = pbCombine candScore acc (pickBest candScore (candidateList b shapes)) := by
  induction shapes with
  | nil => intro acc; cases acc <;> rfl
  | cons s rest ih =>
    intro acc
    rw [List.foldl_cons, ih]
    have hstep : (match findBestMove b s with
        | none => acc
        | some mv =>
          match acc with
          | none => some (s, mv.1, mv.2.1, mv.2.2)
          | some best => if mv.2.2 > best.2.2.2 then some (s, mv.1, mv.2.1, mv.2.2) else acc)
        = pbCombine candScore acc ((findBestMove b s).map fun mv => (s, mv.1, mv.2.1, mv.2.2)) := by
      cases findBestMove b s <;> cases acc <;> rfl
    rw [hstep]
    have hX : (findBestMove b s).map (fun mv => (s, mv.1, mv.2.1, mv.2.2))
        = pickBest candScore ((perShapeCandidates b s).map fun m => (s, m.1, m.2.1, m.2.2)) := by
      rw [findBestMove_eq]
      exact (pickBest_map candScore (fun m => (s, m.1, m.2.1, m.2.2)) (perShapeCandidates b s)).symm
    rw [hX]
    have hflat : candidateList b (s :: rest)
        = ((perShapeCandidates b s).map fun m => (s, m.1, m.2.1, m.2.2)) ++ candidateList b rest := by
      simp [candidateList]
    rw [hflat, pickBest_append, pbCombine_assoc]

theorem selectMove_eq (b : Board) (shapes : List Shape) :
    selectMove b shapes = pickBest candScore (candidateList b shapes) := by
  have h := selectMove_go b shapes none
  rw [pbCombine_none_left] at h
  exact h

theorem mem_positionList (rc : Nat × Nat) :
    rc ∈ positionList ↔ rc.1 < GRID_SIZE ∧ rc.2 < GRID_SIZE := by
  cases rc with
  | mk r c =>
    simp only [positionList, List.mem_flatMap, List.mem_map, List.mem_range]
    constructor
    · rintro ⟨row, hrow, col, hcol, heq⟩
      obtain ⟨rfl, rfl⟩ := Prod.mk.injEq .. ▸ heq
      exact ⟨hrow, hcol⟩
    · rintro ⟨h1, h2⟩
      exact ⟨r, h1, c, h2, rfl⟩

theorem mem_candidateList (b : Board) (shapes : List Shape)
    (cand : Shape × Nat × Nat × Int) (h : cand ∈ candidateList b shapes) :
    cand.1 ∈ shapes
      ∧ canPlaceShape b (cand.2.1 : Int) (cand.2.2.1 : Int) cand.1 = true := by
  simp only [candidateList, List.mem_flatMap, List.mem_map] at h
  obtain ⟨s, hs, m, hm, rfl⟩ := h
  simp only [perShapeCandidates, List.mem_filterMap] at hm
  obtain ⟨rc, _, hite⟩ := hm
  by_cases hcp : canPlaceShape b (rc.1 : Int) (rc.2 : Int) s = true
  · rw [if_pos hcp] at hite
    injection hite with hite
    subst hite
    exact ⟨hs, hcp⟩
  · rw [if_neg hcp] at hite
    cases hite

/-- Concrete shape data used by the closed witness and counterexample
theorems. -/
def oneShape : Shape := { blocks := [[true]], color := 0x00ff00 }

/-- The vertical I tetromino of the catalog, drawn blue. -/
def iShape : Shape := { blocks := [[true], [true], [true], [true]], color := 0x0000ff }

/-- A fully-true 8×8 shape matrix: placeable only at the origin, so the AI
scan produces exactly one candidate. -/
def fullShape : Shape :=
  { blocks := List.replicate 8 (List.replicate 8 true), color := 0xff0000 }

/-- A board with every cell filled: no shape has a valid placement. -/
def fullBoard : Board := fun _ _ => { color := 0xff0000, isEmpty := false }

/-- C7.  The AI selection (findBestMove's position scan combined with the
per-shape loop of runAI and executeMove) returns the first candidate of
strictly greatest heuristic score in scan order — shapes in batch order,
positions row-major then column-major — because the comparison is a strict
greater-than: every earlier candidate scores strictly less, every later
candidate scores at most as much, and `none` is returned exactly when no
candidate exists. -/
theorem ai_selects_first_strict_max (b : Board) (shapes : List Shape) :
    (selectMove b shapes = none ↔ candidateList b shapes = []) ∧
    ∀ cand, selectMove b shapes = some cand →
      ∃ l1 l2, candidateList b shapes = l1 ++ cand :: l2 ∧
        (∀ x ∈ l1, candScore x < candScore cand)
          ∧ ∀ x ∈ l2, candScore x ≤ candScore cand := by
  constructor
  · rw [selectMove_eq]
    exact pickBest_eq_none_iff ..
  · intro cand h
    rw [selectMove_eq] at h
    exact pickBest_spec _ _ _ h

/-- Witness for C7 at a concrete input: on the empty board with the single
8×8 full shape, the selection picks the unique candidate at the origin. -/
theorem ai_selects_first_strict_max_witness :
    ∃ l1 l2, candidateList createEmptyBoard [fullShape]
        = l1 ++ (fullShape, 0, 0, 17200) :: l2 ∧
      (∀ x ∈ l1, candScore x < candScore (fullShape, 0, 0, 17200))
        ∧ ∀ x ∈ l2, candScore x ≤ candScore (fullShape, 0, 0, 17200) :=
  (ai_selects_first_strict_max createEmptyBoard [fullShape]).2
    (fullShape, 0, 0, 17200) (by decide)

/-- C8.  The AI never selects a move failing `canPlaceShape`: every selected
move is a batch shape at a position where `canPlaceShape` returned true on
the searched board, and when no batch shape has any valid placement
(`hasValidMoves` false) the selection is `none`, so the AI commits no
placement. -/
theorem ai_never_selects_invalid (b : Board) (shapes : List Shape) :
    (∀ s row col sc, selectMove b shapes = some (s, row, col, sc) →
      s ∈ shapes ∧ canPlaceShape b (row : Int) (col : Int) s = true) ∧
    (hasValidMoves b shapes = false → selectMove b shapes = none) := by
  constructor
  · intro s row col sc h
    rw [selectMove_eq] at h
    exact mem_candidateList b shapes _ (pickBest_mem _ _ _ h)
  · intro h
    rw [selectMove_eq, pickBest_eq_none_iff]
    cases shapes with
    | nil => rfl
    | cons s rest =>
      rw [hasValidMoves] at h
      rw [if_pos (by simp)] at h
      simp only [List.any_eq_false, List.mem_range] at h
      simp only [candidateList, List.flatMap_eq_nil_iff, List.map_eq_nil_iff]
      intro sh hsh
      simp only [perShapeCandidates, List.filterMap_eq_nil_iff]
      intro rc hrc
      obtain ⟨h1, h2⟩ := (mem_positionList rc).mp hrc
      have hsh2 := h sh hsh
      simp only [Bool.not_eq_true, List.any_eq_false, List.mem_range] at hsh2
      rw [if_neg (by simpa using hsh2 rc.1 h1 rc.2 h2)]

/-- Witness for C8 at concrete inputs: the move selected on the empty board
is valid, and on a full board (no moves) nothing is selected. -/
theorem ai_never_selects_invalid_witness :
    (fullShape ∈ [fullShape]
        ∧ canPlaceShape createEmptyBoard ((0 : Nat) : Int) ((0 : Nat) : Int) fullShape = true)
      ∧ selectMove fullBoard [oneShape] = none :=
  ⟨(ai_never_selects_invalid createEmptyBoard [fullShape]).1 fullShape 0 0 17200 (by decide),
    (ai_never_selects_invalid fullBoard [oneShape]).2 (by decide)⟩

/-! List access helpers relating `getD` reads to `getElem` and defaults. -/

theorem getD_ge {β : Type _} (l : List β) (n : Nat) (d : β) (h : l.length ≤ n) :
    l.getD n d = d := by
  simp [List.getD_eq_getElem?_getD, List.getElem?_eq_none h]

theorem getD_lt {β : Type _} (l : List β) (n : Nat) (d : β) (h : n < l.length) :
    l.getD n d = l[n] := by
  simp [List.getD_eq_getElem?_getD, List.getElem?_eq_getElem h]

theorem getD_map_range {β : Type _} (n : Nat) (f : Nat → β) (c : Nat) (h : c < n) (d : β) :
    ((List.range n).map f).getD c d = f c := by
  simp [List.getD_eq_getElem?_getD, List.getElem?_map, List.getElem?_range h]

theorem getCell_row_ge (m : List (List Bool)) (r c : Nat) (h : m.length ≤ r) :
    getCell m r c = false := by
  rw [getCell, getD_ge _ _ _ h]
  rfl

theorem getCell_col_ge (m : List (List Bool)) (r c : Nat)
    (h : (m.getD r []).length ≤ c) : getCell m r c = false := by
  rw [getCell, getD_ge _ _ _ h]

theorem getCell_true_bounds (m : List (List Bool)) (r c : Nat)
    (h : getCell m r c = true) : r < m.length ∧ c < (m.getD r []).length := by
  constructor
  · by_contra hr
    push_neg at hr
    rw [getCell_row_ge m r c hr] at h
    cases h
  · by_contra hc
    push_neg at hc
    rw [getCell_col_ge m r c hc] at h
    cases h

/-- Two matrices with the same dimensions and the same cells are equal. -/
theorem matrix_ext (m1 m2 : List (List Bool)) (hlen : m1.length = m2.length)
    (hrow : ∀ r (h1 : r < m1.length) (h2 : r < m2.length), m1[r].length = m2[r].length)
    (hcell : ∀ r c, r < m1.length → getCell m1 r c = getCell m2 r c) : m1 = m2 := by
  apply List.ext_getElem hlen
  intro r h1 h2
  apply List.ext_getElem (hrow r h1 h2)
  intro c hc1 hc2
  have hcc := hcell r c h1
  rw [getCell, getCell, getD_lt _ _ _ h1, getD_lt _ _ _ h2,
    getD_lt _ _ _ hc1, getD_lt _ _ _ hc2] at hcc
  exact hcc

/-! Dimension and entry lemmas for `rotateShape`. -/

theorem rotateShape_length (m : List (List Bool)) :
    (rotateShape m).length = (m.headD []).length := by
  simp [rotateShape]

theorem rotateShape_row_length (m : List (List Bool)) (row : List Bool)
    (h : row ∈ rotateShape m) : row.length = m.length := by
  simp only [rotateShape, List.mem_map, List.mem_range] at h
  obtain ⟨c, -, rfl⟩ := h
  simp

theorem rotateShape_head_length (m : List (List Bool))
    (h : 0 < (m.headD []).length) : ((rotateShape m).headD []).length = m.length := by
  simp only [rotateShape]
  obtain ⟨k, hk⟩ : ∃ k, (m.headD []).length = k + 1 :=
    ⟨_, (Nat.succ_pred_eq_of_pos h).symm⟩
  rw [hk, List.range_succ_eq_map]
  simp

theorem rotateShape_rect (m : List (List Bool)) : Rect (rotateShape m) := by
  intro row h
  have h2 := h
  simp only [rotateShape, List.mem_map, List.mem_range] at h2
  obtain ⟨c, hc, rfl⟩ := h2
  simp only [List.length_map, List.length_range]
  rw [rotateShape_head_length m (by omega)]

theorem rotateShape_getCell (m : List (List Bool)) (c k : Nat)
    (hc : c < (m.headD []).length) (hk : k < m.length) :
    getCell (rotateShape m) c k = getCell m (m.length - 1 - k) c := by
  have hrot : rotateShape m = (List.range (m.headD []).length).map
      (fun c => (List.range m.length).map fun k => getCell m (m.length - 1 - k) c) := rfl
  rw [getCell, hrot, getD_map_range _ _ _ hc, getD_map_range _ _ _ hk]

set_option maxHeartbeats 1600000 in
/-- C6.  rotateShape is the clockwise quarter turn
`rotated[col][rows - 1 - row] = shape[row][col]` with result dimensions
`cols × rows`, and applying it four times to a (nonempty rectangular) shape
matrix gives back the original matrix. -/
theorem rotateShape_spec (m : List (List Bool)) (hrect : Rect m)
    (hr : 0 < m.length) (hw : 0 < (m.headD []).length) :
    ((rotateShape m).length = (m.headD []).length ∧
      ∀ r, r < m.length → ∀ c, c < (m.headD []).length →
        getCell (rotateShape m) c (m.length - 1 - r) = getCell m r c) ∧
    rotateShape (rotateShape (rotateShape (rotateShape m))) = m := by
  constructor
  · refine ⟨rotateShape_length m, ?_⟩
    intro r hrlt c hclt
    rw [rotateShape_getCell m c (m.length - 1 - r) hclt (by omega)]
    congr 1
    omega
  · set h := m.length with hh
    set w := (m.headD []).length with hwdef
    set m1 := rotateShape m with hm1
    set m2 := rotateShape m1 with hm2
    set m3 := rotateShape m2 with hm3
    have h1len : m1.length = w := rotateShape_length m
    have h1head : (m1.headD []).length = h := rotateShape_head_length m hw
    have h2len : m2.length = h := (rotateShape_length m1).trans h1head
    have h2head : (m2.headD []).length = w := by
      rw [rotateShape_head_length m1 (by rw [h1head]; exact hr), h1len]
    have h3len : m3.length = w := (rotateShape_length m2).trans h2head
    have h3head : (m3.headD []).length = h := by
      rw [rotateShape_head_length m2 (by rw [h2head]; exact hw), h2len]
    have h4len : (rotateShape m3).length = h := (rotateShape_length m3).trans h3head
    apply matrix_ext
    · rw [h4len]
    · intro r hlt1 hlt2
      have hmem : (rotateShape m3)[r] ∈ rotateShape m3 := List.getElem_mem ..
      rw [rotateShape_row_length m3 _ hmem, h3len]
      have hmem2 : m[r] ∈ m := List.getElem_mem ..
      exact (hrect _ hmem2).symm
    · intro a c halt
      rw [h4len] at halt
      by_cases hcw : c < w
      · have g4 : getCell (rotateShape m3) a c = getCell m3 (w - 1 - c) a := by
          rw [rotateShape_getCell m3 a c (by rw [h3head]; exact halt) (by rw [h3len]; exact hcw),
            h3len]
        have g3 : getCell m3 (w - 1 - c) a = getCell m2 (h - 1 - a) (w - 1 - c) := by
          rw [hm3, rotateShape_getCell m2 (w - 1 - c) a (by rw [h2head]; omega)
            (by rw [h2len]; exact halt), h2len]
        have g2 : getCell m2 (h - 1 - a) (w - 1 - c) = getCell m1 c (h - 1 - a) := by
          rw [hm2, rotateShape_getCell m1 (h - 1 - a) (w - 1 - c) (by rw [h1head]; omega)
            (by rw [h1len]; omega), h1len]
          congr 1
          omega
        have g1 : getCell m1 c (h - 1 - a) = getCell m a c := by
          rw [hm1, rotateShape_getCell m c (h - 1 - a) hcw (by omega)]
          congr 1
          omega
        rw [g4, g3, g2, g1]
      · push_neg at hcw
        have hx : getCell (rotateShape m3) a c = false := by
          apply getCell_col_ge
          rw [getD_lt _ _ _ (by rw [h4len]; exact halt)]
          have hmem : (rotateShape m3)[a] ∈ rotateShape m3 := List.getElem_mem ..
          rw [rotateShape_row_length m3 _ hmem, h3len]
          exact hcw
        have hy : getCell m a c = false := by
          apply getCell_col_ge
          rw [getD_lt _ _ _ halt]
          have hmem : m[a] ∈ m := List.getElem_mem ..
          rw [hrect _ hmem]
          exact hcw
        rw [hx, hy]

/-- The catalog L shape (constants.ts `SHAPES[4]`). -/
def lShape : List (List Bool) := [[true, false], [true, false], [true, true]]

/-- Witness for C6 at a concrete input: four clockwise rotations of the L
shape give back the L shape. -/
theorem rotateShape_spec_witness :
    rotateShape (rotateShape (rotateShape (rotateShape lShape))) = lShape :=
  (rotateShape_spec lShape (by decide) (by decide) (by decide)).2

/-- In a rectangular matrix every in-range row read has the width of the
first row. -/
theorem rect_getD_length (m : List (List Bool)) (hrect : Rect m) (r : Nat)
    (h : r < m.length) : (m.getD r []).length = (m.headD []).length := by
  rw [getD_lt _ _ _ h]
  exact hrect _ (List.getElem_mem ..)

/-- C2.  canPlaceShape succeeds exactly when the position is in bounds
(`0 ≤ row`, `0 ≤ col`, `row + height ≤ GRID_SIZE`, `col + width ≤ GRID_SIZE`)
and no true cell of the shape matrix lies over an already-filled board cell;
it returns false in every other case. -/
theorem canPlaceShape_spec (b : Board) (row col : Int) (s : Shape)
    (hrect : Rect s.blocks) :
    canPlaceShape b row col s = true ↔
      (0 ≤ row ∧ 0 ≤ col ∧ row + (shapeHeight s : Int) ≤ (GRID_SIZE : Int)
        ∧ col + (shapeWidth s : Int) ≤ (GRID_SIZE : Int)
        ∧ ∀ r, r < shapeHeight s → ∀ c, c < shapeWidth s →
            getCell s.blocks r c = true →
            (boardGet b (row.toNat + r) (col.toNat + c)).isEmpty = true) := by
  rw [canPlaceShape]
  by_cases hbad : (row < 0 || row + (shapeHeight s : Int) > (GRID_SIZE : Int)
      || col < 0 || col + (shapeWidth s : Int) > (GRID_SIZE : Int)) = true
  · rw [if_pos hbad]
    simp only [Bool.or_eq_true, decide_eq_true_eq] at hbad
    constructor
    · intro hfalse
      cases hfalse
    · rintro ⟨h1, h2, h3, h4, -⟩
      exfalso
      rcases hbad with ((hb | hb) | hb) | hb <;> omega
  · rw [if_neg hbad]
    simp only [Bool.or_eq_true, decide_eq_true_eq, not_or, not_lt] at hbad
    obtain ⟨⟨⟨hb1, hb2⟩, hb3⟩, hb4⟩ := hbad
    simp only [List.all_eq_true, List.mem_range]
    constructor
    · intro hall
      refine ⟨hb1, hb3, hb2, hb4, ?_⟩
      intro r hr c hc hcell
      have hwidth : c < (s.blocks.getD r []).length := by
        rw [rect_getD_length s.blocks hrect r hr]
        exact hc
      have hone := hall r hr c hwidth
      rw [hcell] at hone
      simp only [Bool.true_and, Bool.not_not] at hone
      exact hone
    · rintro ⟨-, -, -, -, hfree⟩
      intro r hr c hc
      by_cases hcell : getCell s.blocks r c = true
      · have hwc : c < shapeWidth s := by
          show c < (s.blocks.headD []).length
          rw [← rect_getD_length s.blocks hrect r hr]
          exact hc
        rw [hcell, hfree r hr c hwc hcell]
        rfl
      · simp only [Bool.not_eq_true] at hcell
        rw [hcell]
        rfl

/-- Witness for C2 at a concrete input: the 1×1 shape is placeable at the
origin of the empty board. -/
theorem canPlaceShape_spec_witness :
    canPlaceShape createEmptyBoard ((0 : Nat) : Int) ((0 : Nat) : Int) oneShape = true :=
  (canPlaceShape_spec createEmptyBoard 0 0 oneShape (by decide)).mpr (by decide)

/-- C10.  hasValidMoves reports no move for an empty batch, regardless of
the board (the early `shapes.length > 0` test fails and the function
returns false without looking at the board). -/
theorem hasValidMoves_empty_batch (b : Board) : hasValidMoves b [] = false := rfl

/-! Pointwise characterization of `placeShape` and the filled-cell count. -/

theorem boardGet_lt (b : Board) (r c : Nat) (hr : r < GRID_SIZE) (hc : c < GRID_SIZE) :
    boardGet b r c = b ⟨r, hr⟩ ⟨c, hc⟩ := by
  rw [boardGet, dif_pos ⟨hr, hc⟩]

theorem foldl_setCell_cond (cond : Nat × Nat → Bool) (pos1 pos2 : Nat × Nat → Nat)
    (v : Cell) (l : List (Nat × Nat)) : ∀ (b : Board) (i j : Fin GRID_SIZE),
    (l.foldl (fun acc p => if cond p then setCell acc (pos1 p) (pos2 p) v else acc) b) i j
      = if ∃ p ∈ l, cond p = true ∧ pos1 p = i.val ∧ pos2 p = j.val then v else b i j := by
  induction l with
  | nil =>
    intro b i j
    simp
  | cons q l ih =>
    intro b i j
    rw [List.foldl_cons, ih]
    by_cases hex : ∃ p ∈ l, cond p = true ∧ pos1 p = i.val ∧ pos2 p = j.val
    · rw [if_pos hex]
      obtain ⟨p, hp, hprop⟩ := hex
      have hex2 : ∃ p ∈ q :: l, cond p = true ∧ pos1 p = i.val ∧ pos2 p = j.val :=
        ⟨p, List.mem_cons_of_mem q hp, hprop⟩
      rw [if_pos hex2]
    · rw [if_neg hex]
      by_cases hq : cond q = true ∧ pos1 q = i.val ∧ pos2 q = j.val
      · obtain ⟨h1, h2, h3⟩ := hq
        have hex2 : ∃ p ∈ q :: l, cond p = true ∧ pos1 p = i.val ∧ pos2 p = j.val :=
          ⟨q, List.mem_cons_self q l, h1, h2, h3⟩
        rw [if_pos h1, setCell,
          if_pos (show i.val = pos1 q ∧ j.val = pos2 q from ⟨h2.symm, h3.symm⟩),
          if_pos hex2]
      · have hnone : ¬∃ p ∈ q :: l, cond p = true ∧ pos1 p = i.val ∧ pos2 p = j.val := by
          rintro ⟨p, hp, hprop⟩
          rcases List.mem_cons.mp hp with rfl | hpl
          · exact hq hprop
          · exact hex ⟨p, hpl, hprop⟩
        rw [if_neg hnone]
        by_cases h1 : cond q = true
        · rw [if_pos h1, setCell, if_neg fun hij => hq ⟨h1, hij.1.symm, hij.2.symm⟩]
        · rw [if_neg h1]

theorem mem_shapePairs (s : Shape) (p : Nat × Nat) :
    p ∈ shapePairs s ↔ p.1 < s.blocks.length ∧ p.2 < (s.blocks.getD p.1 []).length := by
  cases p with
  | mk a c =>
    simp only [shapePairs, List.mem_flatMap, List.mem_map, List.mem_range]
    constructor
    · rintro ⟨row, hrow, col, hcol, heq⟩
      obtain ⟨rfl, rfl⟩ := Prod.mk.injEq .. ▸ heq
      exact ⟨hrow, hcol⟩
    · rintro ⟨h1, h2⟩
      exact ⟨a, h1, c, h2, rfl⟩

theorem cover_iff (s : Shape) (sr sc i j : Nat) :
    (∃ p ∈ shapePairs s, getCell s.blocks p.1 p.2 = true ∧ sr + p.1 = i ∧ sc + p.2 = j)
      ↔ sr ≤ i ∧ sc ≤ j ∧ getCell s.blocks (i - sr) (j - sc) = true := by
  constructor
  · rintro ⟨⟨pr, pc⟩, -, hcell, h1, h2⟩
    refine ⟨by omega, by omega, ?_⟩
    have e1 : i - sr = pr := by omega
    have e2 : j - sc = pc := by omega
    rw [e1, e2]
    exact hcell
  · rintro ⟨h1, h2, hcell⟩
    have hb := getCell_true_bounds _ _ _ hcell
    refine ⟨(i - sr, j - sc), (mem_shapePairs s _).mpr ⟨hb.1, hb.2⟩, hcell, by omega, by omega⟩

theorem placeShape_apply (b : Board) (sr sc : Nat) (s : Shape) (i j : Fin GRID_SIZE) :
    placeShape b sr sc s i j
      = if sr ≤ i.val ∧ sc ≤ j.val ∧ getCell s.blocks (i.val - sr) (j.val - sc) = true
        then { color := s.color, isEmpty := false } else b i j := by
  have h : placeShape b sr sc s i j
      = if ∃ p ∈ shapePairs s, getCell s.blocks p.1 p.2 = true
            ∧ sr + p.1 = i.val ∧ sc + p.2 = j.val
        then ({ color := s.color, isEmpty := false } : Cell) else b i j :=
    foldl_setCell_cond (fun p => getCell s.blocks p.1 p.2)
      (fun p => sr + p.1) (fun p => sc + p.2)
      { color := s.color, isEmpty := false } (shapePairs s) b i j
  rw [h]
  by_cases hc : sr ≤ i.val ∧ sc ≤ j.val ∧ getCell s.blocks (i.val - sr) (j.val - sc) = true
  · rw [if_pos ((cover_iff s sr sc i.val j.val).mpr hc), if_pos hc]
  · rw [if_neg (fun hx => hc ((cover_iff s sr sc i.val j.val).mp hx)), if_neg hc]

theorem filledCount_eq_sum (b : Board) :
    filledCount b
      = ∑ i : Fin GRID_SIZE, ∑ j : Fin GRID_SIZE,
          if (b i j).isEmpty = false then 1 else 0 := by
  rw [filledCount, Finset.card_filter, Fintype.sum_prod_type]

theorem sum_fin_fin_eq_range (F : Nat → Nat → Nat) :
    (∑ i : Fin GRID_SIZE, ∑ j : Fin GRID_SIZE, F i.val j.val)
      = ∑ i ∈ Finset.range GRID_SIZE, ∑ j ∈ Finset.range GRID_SIZE, F i j := by
  have h1 : ∀ i : Fin GRID_SIZE,
      (∑ j : Fin GRID_SIZE, F i.val j.val) = ∑ j ∈ Finset.range GRID_SIZE, F i.val j :=
    fun i => Fin.sum_univ_eq_sum_range (fun j => F i.val j) GRID_SIZE
  rw [Finset.sum_congr rfl fun i _ => h1 i]
  exact Fin.sum_univ_eq_sum_range (fun i => ∑ j ∈ Finset.range GRID_SIZE, F i j) GRID_SIZE

theorem cover_card_range (s : Shape) (sr sc : Nat) (hrect : Rect s.blocks)
    (hbr : sr + shapeHeight s ≤ GRID_SIZE) (hbc : sc + shapeWidth s ≤ GRID_SIZE) :
    (∑ i ∈ Finset.range GRID_SIZE, ∑ j ∈ Finset.range GRID_SIZE,
        if sr ≤ i ∧ sc ≤ j ∧ getCell s.blocks (i - sr) (j - sc) = true then 1 else 0)
      = trueCellCount s := by
  have hsub : Finset.Ico sr (sr + s.blocks.length) ⊆ Finset.range GRID_SIZE := by
    intro x hx
    rw [Finset.mem_Ico] at hx
    rw [Finset.mem_range]
    have : sr + s.blocks.length ≤ GRID_SIZE := hbr
    omega
  have houter : ∀ i ∈ Finset.range GRID_SIZE, i ∉ Finset.Ico sr (sr + s.blocks.length) →
      (∑ j ∈ Finset.range GRID_SIZE,
        if sr ≤ i ∧ sc ≤ j ∧ getCell s.blocks (i - sr) (j - sc) = true then 1 else 0) = 0 := by
    intro i _ hi
    rw [Finset.mem_Ico] at hi
    apply Finset.sum_eq_zero
    intro j _
    rw [if_neg]
    rintro ⟨h1, -, hcell⟩
    have hrow : s.blocks.length ≤ i - sr := by omega
    rw [getCell_row_ge _ _ _ hrow] at hcell
    cases hcell
  rw [← Finset.sum_subset hsub houter, Finset.sum_Ico_eq_sum_range]
  have hlen : sr + s.blocks.length - sr = s.blocks.length := by omega
  rw [hlen, trueCellCount]
  apply Finset.sum_congr rfl
  intro r hr
  rw [Finset.mem_range] at hr
  have hwidth : (s.blocks.getD r []).length = shapeWidth s := rect_getD_length s.blocks hrect r hr
  have hsub2 : Finset.Ico sc (sc + (s.blocks.getD r []).length) ⊆ Finset.range GRID_SIZE := by
    intro x hx
    rw [Finset.mem_Ico] at hx
    rw [Finset.mem_range]
    have : sc + shapeWidth s ≤ GRID_SIZE := hbc
    omega
  have hinner : ∀ j ∈ Finset.range GRID_SIZE,
      j ∉ Finset.Ico sc (sc + (s.blocks.getD r []).length) →
      (if sr ≤ sr + r ∧ sc ≤ j ∧ getCell s.blocks (sr + r - sr) (j - sc) = true
        then 1 else 0) = 0 := by
    intro j _ hj
    rw [Finset.mem_Ico] at hj
    rw [if_neg]
    rintro ⟨-, h2, hcell⟩
    have hcol : (s.blocks.getD (sr + r - sr) []).length ≤ j - sc := by
      have e : sr + r - sr = r := by omega
      rw [e]
      omega
    rw [getCell_col_ge _ _ _ hcol] at hcell
    cases hcell
  rw [← Finset.sum_subset hsub2 hinner, Finset.sum_Ico_eq_sum_range]
  have hlen2 : sc + (s.blocks.getD r []).length - sc = (s.blocks.getD r []).length := by omega
  rw [hlen2]
  apply Finset.sum_congr rfl
  intro c _
  have e1 : sr + r - sr = r := by omega
  have e2 : sc + c - sc = c := by omega
  rw [e1, e2]
  by_cases hcell : getCell s.blocks r c = true
  · rw [if_pos (show sr ≤ sr + r ∧ sc ≤ sc + c ∧ getCell s.blocks r c = true from
      ⟨by omega, by omega, hcell⟩), if_pos hcell]
  · rw [if_neg (fun hx => hcell hx.2.2), if_neg hcell]

/-- C3.  Under the `canPlaceShape` precondition, `placeShape` sets exactly
the board cells covered by a true cell of the shape matrix to the shape's
color (non-empty), leaves every other cell unchanged, and increases the
filled-cell count by the shape's true-cell count. -/
theorem placeShape_spec (b : Board) (row col : Int) (s : Shape) (hrect : Rect s.blocks)
    (hcan : canPlaceShape b row col s = true) :
    (∀ i j : Fin GRID_SIZE,
      placeShape b row.toNat col.toNat s i j
        = if row.toNat ≤ i.val ∧ col.toNat ≤ j.val
              ∧ getCell s.blocks (i.val - row.toNat) (j.val - col.toNat) = true
          then { color := s.color, isEmpty := false } else b i j) ∧
    filledCount (placeShape b row.toNat col.toNat s)
      = filledCount b + trueCellCount s := by
  obtain ⟨hb1, hb2, hb3, hb4, hfree⟩ := (canPlaceShape_spec b row col s hrect).mp hcan
  have hbr : row.toNat + shapeHeight s ≤ GRID_SIZE := by omega
  have hbc : col.toNat + shapeWidth s ≤ GRID_SIZE := by omega
  have hfree2 : ∀ i j : Fin GRID_SIZE, row.toNat ≤ i.val → col.toNat ≤ j.val →
      getCell s.blocks (i.val - row.toNat) (j.val - col.toNat) = true →
      (b i j).isEmpty = true := by
    intro i j h1 h2 hcell
    have hb := getCell_true_bounds _ _ _ hcell
    have hw : j.val - col.toNat < shapeWidth s := by
      have := rect_getD_length s.blocks hrect _ hb.1
      show j.val - col.toNat < (s.blocks.headD []).length
      rw [← this]
      exact hb.2
    have := hfree (i.val - row.toNat) hb.1 (j.val - col.toNat) hw hcell
    have e1 : row.toNat + (i.val - row.toNat) = i.val := by omega
    have e2 : col.toNat + (j.val - col.toNat) = j.val := by omega
    rw [e1, e2, boardGet_lt b i.val j.val i.isLt j.isLt] at this
    simpa using this
  refine ⟨fun i j => placeShape_apply b row.toNat col.toNat s i j, ?_⟩
  rw [filledCount_eq_sum, filledCount_eq_sum]
  have hpoint : ∀ i j : Fin GRID_SIZE,
      (if (placeShape b row.toNat col.toNat s i j).isEmpty = false then 1 else 0)
        = (if (b i j).isEmpty = false then 1 else 0)
          + (if row.toNat ≤ i.val ∧ col.toNat ≤ j.val
                ∧ getCell s.blocks (i.val - row.toNat) (j.val - col.toNat) = true
            then 1 else 0) := by
    intro i j
    rw [placeShape_apply]
    by_cases hcov : row.toNat ≤ i.val ∧ col.toNat ≤ j.val
        ∧ getCell s.blocks (i.val - row.toNat) (j.val - col.toNat) = true
    · rw [if_pos hcov, if_pos hcov]
      have hemp := hfree2 i j hcov.1 hcov.2.1 hcov.2.2
      rw [hemp]
      simp
    · rw [if_neg hcov, if_neg hcov]
      exact (Nat.add_zero _).symm
  calc (∑ i : Fin GRID_SIZE, ∑ j : Fin GRID_SIZE,
          if (placeShape b row.toNat col.toNat s i j).isEmpty = false then 1 else 0)
      = ∑ i : Fin GRID_SIZE, ∑ j : Fin GRID_SIZE,
          ((if (b i j).isEmpty = false then 1 else 0)
            + (if row.toNat ≤ i.val ∧ col.toNat ≤ j.val
                  ∧ getCell s.blocks (i.val - row.toNat) (j.val - col.toNat) = true
              then 1 else 0)) := by
        apply Finset.sum_congr rfl
        intro i _
        apply Finset.sum_congr rfl
        intro j _
        exact hpoint i j
    _ = (∑ i : Fin GRID_SIZE, ∑ j : Fin GRID_SIZE,
          if (b i j).isEmpty = false then 1 else 0)
        + ∑ i : Fin GRID_SIZE, ∑ j : Fin GRID_SIZE,
            (if row.toNat ≤ i.val ∧ col.toNat ≤ j.val
                ∧ getCell s.blocks (i.val - row.toNat) (j.val - col.toNat) = true
              then 1 else 0) := by
        rw [← Finset.sum_add_distrib]
        apply Finset.sum_congr rfl
        intro i _
        rw [← Finset.sum_add_distrib]
    _ = (∑ i : Fin GRID_SIZE, ∑ j : Fin GRID_SIZE,
          if (b i j).isEmpty = false then 1 else 0) + trueCellCount s := by
        exact congrArg (fun x => _ + x) ((sum_fin_fin_eq_range fun i j =>
          if row.toNat ≤ i ∧ col.toNat ≤ j
              ∧ getCell s.blocks (i - row.toNat) (j - col.toNat) = true
            then 1 else 0).trans
          (cover_card_range s row.toNat col.toNat hrect hbr hbc))

/-- Witness for C3 at a concrete input: placing the 1×1 shape at the origin
of the empty board raises the filled count from 0 to 1. -/
theorem placeShape_spec_witness :
    filledCount (placeShape createEmptyBoard (Int.toNat 0) (Int.toNat 0) oneShape)
      = filledCount createEmptyBoard + trueCellCount oneShape :=
  (placeShape_spec createEmptyBoard 0 0 oneShape (by decide) (by decide)).2

/-! The cell invariant: filled cells carry a non-sentinel color, empty cells
carry the sentinel 0. -/

/-- The data invariant of board cells (spec data model): an empty cell has
the sentinel color 0, a filled cell a non-zero color. -/
def BoardInv (b : Board) : Prop :=
  ∀ i j : Fin GRID_SIZE,
    ((b i j).isEmpty = true → (b i j).color = 0)
      ∧ ((b i j).isEmpty = false → (b i j).color ≠ 0)

instance (b : Board) : Decidable (BoardInv b) := by
  unfold BoardInv; infer_instance

theorem foldl_clearBlock_mem (l : List (Nat × Nat)) : ∀ (b : Board) (i j : Fin GRID_SIZE),
    (l.foldl (fun acc p => clearBlock acc p.1 p.2) b) i j
      = if (i.val, j.val) ∈ l then emptyCell else b i j := by
  induction l with
  | nil =>
    intro b i j
    simp
  | cons q l ih =>
    intro b i j
    rw [List.foldl_cons, ih]
    by_cases hmem : (i.val, j.val) ∈ l
    · rw [if_pos hmem, if_pos (List.mem_cons_of_mem q hmem)]
    · rw [if_neg hmem]
      by_cases hq : (i.val, j.val) = q
      · rw [if_pos (hq ▸ List.mem_cons_self q l)]
        simp only [clearBlock, setCell]
        rw [if_pos ⟨congrArg Prod.fst hq, congrArg Prod.snd hq⟩]
      · have hnone : (i.val, j.val) ∉ q :: l := by
          intro hx
          rcases List.mem_cons.mp hx with h | h
          · exact hq h
          · exact hmem h
        rw [if_neg hnone]
        simp only [clearBlock, setCell]
        rw [if_neg fun hij => hq (Prod.ext hij.1 hij.2)]

theorem clearLines_apply (b : Board) (rows cols : List Nat) (i j : Fin GRID_SIZE) :
    clearLines b rows cols i j
      = if (i.val, j.val) ∈ blocksToRemove rows cols then emptyCell else b i j :=
  foldl_clearBlock_mem (blocksToRemove rows cols) b i j

/-- C9.  Every board mutation preserves the cell invariant: the fresh board
satisfies it, `placeShape` writes a palette (hence non-zero) color into
cells it marks filled, and `clearBlock` / `clearLines` reset cells to the
empty sentinel state. -/
theorem cell_invariant_preserved (b : Board) (s : Shape) (sr sc r c : Nat)
    (rows cols : List Nat) (hb : BoardInv b) (hcol : s.color ∈ BLOCK_COLORS) :
    BoardInv createEmptyBoard
      ∧ BoardInv (placeShape b sr sc s)
      ∧ BoardInv (clearBlock b r c)
      ∧ BoardInv (clearLines b rows cols) := by
  have hc0 : s.color ≠ 0 := by
    have hall : ∀ x ∈ BLOCK_COLORS, x ≠ 0 := by decide
    exact hall _ hcol
  refine ⟨?_, ?_, ?_, ?_⟩
  · intro i j
    constructor
    · intro
      rfl
    · intro h
      cases h
  · intro i j
    rw [placeShape_apply]
    by_cases hcov : sr ≤ i.val ∧ sc ≤ j.val
        ∧ getCell s.blocks (i.val - sr) (j.val - sc) = true
    · rw [if_pos hcov]
      constructor
      · intro h
        cases h
      · intro
        exact hc0
    · rw [if_neg hcov]
      exact hb i j
  · intro i j
    simp only [clearBlock, setCell]
    by_cases hij : i.val = r ∧ j.val = c
    · rw [if_pos hij]
      constructor
      · intro
        rfl
      · intro h
        cases h
    · rw [if_neg hij]
      exact hb i j
  · intro i j
    rw [clearLines_apply]
    by_cases hmem : (i.val, j.val) ∈ blocksToRemove rows cols
    · rw [if_pos hmem]
      constructor
      · intro
        rfl
      · intro h
        cases h
    · rw [if_neg hmem]
      exact hb i j

/-- Witness for C9 at a concrete input: the invariant holds after placing
the 1×1 palette-colored shape on the fresh board. -/
theorem cell_invariant_preserved_witness :
    BoardInv (placeShape createEmptyBoard 0 0 oneShape) :=
  (cell_invariant_preserved createEmptyBoard oneShape 0 0 0 0 [] []
    (by decide) (by decide)).2.1

/-! Line detection and the dedup collection of cleared cells. -/

theorem mem_fullRows (b : Board) (i : Fin GRID_SIZE) :
    i.val ∈ fullRows b ↔ ∀ j : Fin GRID_SIZE, (b i j).isEmpty = false := by
  rw [fullRows]
  simp only [List.mem_filter, List.mem_range, List.all_eq_true]
  constructor
  · rintro ⟨-, hall⟩ j
    have hj := hall j.val j.isLt
    rw [boardGet_lt b i.val j.val i.isLt j.isLt] at hj
    simpa using hj
  · intro hall
    refine ⟨i.isLt, ?_⟩
    intro cc hcc
    rw [boardGet_lt b i.val cc i.isLt hcc]
    have := hall ⟨cc, hcc⟩
    simp [this]

theorem mem_fullCols (b : Board) (j : Fin GRID_SIZE) :
    j.val ∈ fullCols b ↔ ∀ i : Fin GRID_SIZE, (b i j).isEmpty = false := by
  rw [fullCols]
  simp only [List.mem_filter, List.mem_range, List.all_eq_true]
  constructor
  · rintro ⟨-, hall⟩ i
    have hi := hall i.val i.isLt
    rw [boardGet_lt b i.val j.val i.isLt j.isLt] at hi
    simpa using hi
  · intro hall
    refine ⟨j.isLt, ?_⟩
    intro rr hrr
    rw [boardGet_lt b rr j.val hrr j.isLt]
    have := hall ⟨rr, hrr⟩
    simp [this]

theorem dedup_foldl_mem (l : List (Nat × Nat)) : ∀ (acc : List (Nat × Nat)) (x : Nat × Nat),
    x ∈ l.foldl (fun acc p => if p ∈ acc then acc else acc ++ [p]) acc
      ↔ x ∈ acc ∨ x ∈ l := by
  induction l with
  | nil =>
    intro acc x
    simp
  | cons q l ih =>
    intro acc x
    rw [List.foldl_cons]
    by_cases hq : q ∈ acc
    · rw [if_pos hq, ih]
      constructor
      · rintro (h | h)
        · exact Or.inl h
        · exact Or.inr (List.mem_cons_of_mem q h)
      · rintro (h | h)
        · exact Or.inl h
        · rcases List.mem_cons.mp h with rfl | h
          · exact Or.inl hq
          · exact Or.inr h
    · rw [if_neg hq, ih]
      simp only [List.mem_append, List.mem_cons, List.mem_singleton]
      tauto

theorem dedup_foldl_nodup (l : List (Nat × Nat)) : ∀ acc : List (Nat × Nat),
    acc.Nodup → (l.foldl (fun acc p => if p ∈ acc then acc else acc ++ [p]) acc).Nodup := by
  induction l with
  | nil =>
    intro acc h
    exact h
  | cons q l ih =>
    intro acc h
    rw [List.foldl_cons]
    by_cases hq : q ∈ acc
    · rw [if_pos hq]
      exact ih acc h
    · rw [if_neg hq]
      apply ih
      rw [List.nodup_append]
      refine ⟨h, List.nodup_singleton q, ?_⟩
      intro a ha hb
      rw [List.mem_singleton] at hb
      subst hb
      exact hq ha

theorem blocksToRemove_nodup (rows cols : List Nat) : (blocksToRemove rows cols).Nodup :=
  dedup_foldl_nodup _ [] List.nodup_nil

theorem blocksToRemove_mem (rows cols : List Nat) (a bcol : Nat) :
    (a, bcol) ∈ blocksToRemove rows cols
      ↔ (a ∈ rows ∧ bcol < GRID_SIZE) ∨ (bcol ∈ cols ∧ a < GRID_SIZE) := by
  rw [blocksToRemove, dedup_foldl_mem]
  simp only [List.mem_append, List.mem_flatMap, List.mem_map, List.mem_range,
    List.not_mem_nil, false_or]
  constructor
  · rintro (⟨row, hrow, col, hcol, heq⟩ | ⟨col, hcol, row, hrow, heq⟩)
    · obtain ⟨rfl, rfl⟩ := Prod.mk.injEq .. ▸ heq
      exact Or.inl ⟨hrow, hcol⟩
    · obtain ⟨rfl, rfl⟩ := Prod.mk.injEq .. ▸ heq
      exact Or.inr ⟨hcol, hrow⟩
  · rintro (⟨h1, h2⟩ | ⟨h1, h2⟩)
    · exact Or.inl ⟨a, h1, bcol, h2, rfl⟩
    · exact Or.inr ⟨bcol, h1, a, h2, rfl⟩

/-- C1.  Per-line clearing after a commit: a row (column) is detected full
iff all `GRID_SIZE` of its cells are filled; the collected cells form a
duplicate-free list covering exactly the union of the selected rows and
columns (an intersection cell is cleared once); applying `checkLines`
empties exactly that union and adds `(#rows + #cols) * 100` to the score,
so a simultaneous one-row-plus-one-column clear adds 200. -/
theorem checkLines_spec (b : Board) (score : Nat) :
    (∀ i : Fin GRID_SIZE,
      (i.val ∈ fullRows b ↔ ∀ j : Fin GRID_SIZE, (b i j).isEmpty = false)) ∧
    (∀ j : Fin GRID_SIZE,
      (j.val ∈ fullCols b ↔ ∀ i : Fin GRID_SIZE, (b i j).isEmpty = false)) ∧
    (blocksToRemove (fullRows b) (fullCols b)).Nodup ∧
    (∀ i j : Fin GRID_SIZE,
      ((i.val, j.val) ∈ blocksToRemove (fullRows b) (fullCols b)
        ↔ i.val ∈ fullRows b ∨ j.val ∈ fullCols b)) ∧
    (∀ i j : Fin GRID_SIZE,
      (checkLines b score).1 i j
        = if i.val ∈ fullRows b ∨ j.val ∈ fullCols b then emptyCell else b i j) ∧
    (checkLines b score).2 = score + ((fullRows b).length + (fullCols b).length) * 100 ∧
    ((fullRows b).length = 1 → (fullCols b).length = 1 →
      (checkLines b score).2 = score + 200) := by
  have hmem : ∀ i j : Fin GRID_SIZE,
      ((i.val, j.val) ∈ blocksToRemove (fullRows b) (fullCols b)
        ↔ i.val ∈ fullRows b ∨ j.val ∈ fullCols b) := by
    intro i j
    rw [blocksToRemove_mem]
    constructor
    · rintro (⟨h, -⟩ | ⟨h, -⟩)
      · exact Or.inl h
      · exact Or.inr h
    · rintro (h | h)
      · exact Or.inl ⟨h, j.isLt⟩
      · exact Or.inr ⟨h, i.isLt⟩
  refine ⟨fun i => mem_fullRows b i, fun j => mem_fullCols b j,
    blocksToRemove_nodup .., hmem, ?_, ?_, ?_⟩
  · intro i j
    rw [checkLines]
    by_cases hcl : ((fullRows b).length > 0 || (fullCols b).length > 0) = true
    · rw [if_pos hcl]
      show clearLines b (fullRows b) (fullCols b) i j = _
      rw [clearLines_apply]
      by_cases hor : i.val ∈ fullRows b ∨ j.val ∈ fullCols b
      · rw [if_pos ((hmem i j).mpr hor), if_pos hor]
      · rw [if_neg fun hx => hor ((hmem i j).mp hx), if_neg hor]
    · rw [if_neg hcl]
      simp only [Bool.or_eq_true, decide_eq_true_eq, not_or] at hcl
      have hrows : fullRows b = [] := List.length_eq_zero.mp (by omega)
      have hcols : fullCols b = [] := List.length_eq_zero.mp (by omega)
      have hnc : ¬(i.val ∈ fullRows b ∨ j.val ∈ fullCols b) := by
        rw [hrows, hcols]
        rintro (h | h) <;> cases h
      rw [if_neg hnc]
  · rw [checkLines]
    by_cases hcl : ((fullRows b).length > 0 || (fullCols b).length > 0) = true
    · rw [if_pos hcl]
      rfl
    · rw [if_neg hcl]
      simp only [Bool.or_eq_true, decide_eq_true_eq, not_or] at hcl
      show score = score + ((fullRows b).length + (fullCols b).length) * 100
      omega
  · intro h1 h2
    rw [checkLines, if_pos (by rw [h1]; rfl)]
    show score + ((fullRows b).length + (fullCols b).length) * 100 = score + 200
    omega

/-! Concrete game states for the state-machine claims. -/

/-- Empty positions of a nearly-full test board: every row and column keeps
at least one empty cell besides `(0,0)`, and no column has four
consecutive empties. -/
def c4Empties : List (Nat × Nat) :=
  [(0, 0), (0, 7), (1, 0), (1, 1), (2, 2), (3, 3), (4, 4), (5, 5), (6, 6), (7, 7)]

/-- A nearly-full board: exactly the `c4Empties` cells are empty. -/
def c4Board : Board := fun i j =>
  if (i.val, j.val) ∈ c4Empties then emptyCell
  else { color := 0xff0000, isEmpty := false }

/-- Batch of three: a placeable 1×1 plus two unplaceable I tetrominoes. -/
def c4State : GameState :=
  { score := 0, isGameOver := false, shapes := [oneShape, iShape, iShape], board := c4Board }

/-- The same board with a single-shape batch that has no valid move. -/
def c4OneState : GameState :=
  { score := 0, isGameOver := false, shapes := [iShape], board := c4Board }

/-- A game-over state. -/
def c4OverState : GameState :=
  { score := 0, isGameOver := true, shapes := [oneShape, iShape, iShape], board := c4Board }

/-- Counterexample to C4 as stated: placing the 1×1 shape at `(0,0)` leaves
a batch of two I tetrominoes with `hasValidMoves = false`, clears no line,
and the next engine evaluation (the `checkLines` calls of the placement
path) does NOT transition to game over — `checkLines` only triggers
`gameOver` when the batch holds exactly one shape. -/
theorem gameOver_missed_counterexample :
    (attemptPlace c4State oneShape 0 0).map
        (fun g => (g.shapes.length, hasValidMoves g.board g.shapes, g.isGameOver))
      = some (2, false, false) := by
  decide

/-- C4 amended.  A `place` command is rejected outright once the game is
over, and — when the placement cleared no line — the `checkLines`
evaluation sets the game-over flag exactly when the batch holds exactly one
shape and `hasValidMoves` is false; with two or three shapes left the
PLAYING phase persists even with no valid move. -/
theorem gameOver_transition_amended (g : GameState) (s : Shape) (row col : Int) :
    (g.isGameOver = true → attemptPlace g s row col = none) ∧
    (fullRows g.board = [] → fullCols g.board = [] →
      (checkLinesState g).isGameOver
        = (g.isGameOver || (g.shapes.length == 1 && !(hasValidMoves g.board g.shapes)))) := by
  constructor
  · intro h
    rw [attemptPlace, if_pos h]
  · intro hr hc
    simp [checkLinesState, hr, hc]

/-- Witness for the amended C4 at concrete inputs: a game-over state rejects
placement, and a one-shape batch without moves flips the game-over flag at
the next `checkLines` evaluation. -/
theorem gameOver_transition_amended_witness :
    attemptPlace c4OverState oneShape 0 0 = none
      ∧ (checkLinesState c4OneState).isGameOver = true := by
  refine ⟨(gameOver_transition_amended c4OverState oneShape 0 0).1 rfl, ?_⟩
  rw [(gameOver_transition_amended c4OneState oneShape 0 0).2 (by decide) (by decide)]
  decide

/-- The C5 failing input: a batch still holding two unplaced (and
unplaceable) I tetrominoes. -/
def c5State : GameState :=
  { score := 0, isGameOver := false, shapes := [iShape, iShape], board := c4Board }

/-- An abstract fresh random draw of three shapes. -/
def c5Fresh : List Shape := [oneShape, oneShape, oneShape]

/-- C5 evaluation at the failing input.  The guarded generateNewShapes of
the unnamed Game source keeps the two-shape batch untouched (regeneration
only at batch size 0, as the claim states), while the Game.ts version —
reached from runAI whenever the AI finds no valid move (`selectMove` is
`none` here) — discards the two unplaced shapes and installs a fresh batch
mid-batch, contradicting the claim. -/
theorem batch_regeneration_eval :
    (generateNewShapes c5State c5Fresh).shapes = [iShape, iShape]
      ∧ (generateNewShapesGameTs c5State c5Fresh).shapes = c5Fresh
      ∧ selectMove c5State.board c5State.shapes = none
      ∧ c5State.shapes.length = 2
      ∧ c5State.isGameOver = false := by
  decide

end BlockBlast
